import Mathlib

/-!
Verification of the matrix-normalization module (`toponetx/utils/normalization.py`).

The module's matrices are numpy dense arrays or scipy sparse CSR matrices holding
floating-point numbers.  We embed their numeric content as rational-valued matrices
with a dynamic shape (`QMat`), since every operation used by the boundary/degree
normalizers (absolute value, row sums, matrix product, diagonal construction,
elementwise reciprocal with an infinity guard, pseudo-inverse of a diagonal matrix)
is exact rational arithmetic on finite inputs.  The Kipf adjacency normalizer needs
square roots and can produce IEEE NaN, so it is embedded separately over `ℝ` with
`Option ℝ` values (`none` models NaN).
-/

/-- Dynamic-shape rational matrix: the numeric content of a numpy `ndarray` or a
scipy `csr_matrix`.  `entry i j` is meaningful for `i < rows`, `j < cols`. -/
structure QMat where
  rows : ℕ
  cols : ℕ
  entry : ℕ → ℕ → ℚ

/-- Elementwise absolute value, `np.abs(M)`. -/
def QMat.abs (M : QMat) : QMat :=
  ⟨M.rows, M.cols, fun i j => |M.entry i j|⟩

/-- Row sum, `M.sum(axis=1)` at row `i`. -/
def QMat.rowsum (M : QMat) (i : ℕ) : ℚ :=
  ∑ j ∈ Finset.range M.cols, M.entry i j

/-- Matrix product `A @ B` (sum over the inner dimension `A.cols`). -/
def QMat.mul (A B : QMat) : QMat :=
  ⟨A.rows, B.cols, fun i j => ∑ k ∈ Finset.range A.cols, A.entry i k * B.entry k j⟩

/-- Transpose `M.T`. -/
def QMat.transpose (M : QMat) : QMat :=
  ⟨M.cols, M.rows, fun i j => M.entry j i⟩

/-- Scalar multiple `c * M`. -/
def QMat.scale (c : ℚ) (M : QMat) : QMat :=
  ⟨M.rows, M.cols, fun i j => c * M.entry i j⟩

/-- Square diagonal matrix of size `n` with diagonal vector `d`
(`np.diag(d)` dense, `scipy.sparse.diags(d)` sparse: same numeric content). -/
def diagQ (n : ℕ) (d : ℕ → ℚ) : QMat :=
  ⟨n, n, fun i j => if i = j then d i else 0⟩

/-- Absolute row sum `np.abs(M).sum(axis=1)` at row `i`. -/
def absRowsumQ (M : QMat) (i : ℕ) : ℚ :=
  QMat.rowsum (QMat.abs M) i

/-- Extensional equality of dynamic matrices: same shape and same entries inside
the shape.  This is equality of the mathematical matrices; entries outside the
declared shape are junk values of the embedding. -/
def QMat.Ext (M N : QMat) : Prop :=
  M.rows = N.rows ∧ M.cols = N.cols ∧
    ∀ i, i < M.rows → ∀ j, j < M.cols → M.entry i j = N.entry i j

instance (M N : QMat) : Decidable (QMat.Ext M N) := by
  unfold QMat.Ext; infer_instance

/-- Model of `np.linalg.pinv` at this module's call sites.  The source applies
`pinv` only to the degree matrices `D1` and `D5`, which are always square diagonal
matrices; the Moore–Penrose pseudo-inverse of a real square diagonal matrix is the
diagonal matrix of entrywise reciprocals with zero diagonal entries mapped to zero
(which is what `(QMat.entry M i i)⁻¹` gives over `ℚ`, where `0⁻¹ = 0`).  The
Penrose axioms are proved below (`diagQ_moore_penrose`). -/
def QMat.pinvDiag (M : QMat) : QMat :=
  ⟨M.rows, M.rows, fun i j => if i = j then (M.entry i i)⁻¹ else 0⟩

/-- Model of a numpy floating-point value arising from `np.power(x, -1)` on the
(finite, nonnegative) row sums used here: either `+inf` (from a zero row sum) or a
finite value. -/
inductive NpFloatQ where
  | inf : NpFloatQ
  | fin : ℚ → NpFloatQ

/-- Model of `np.power(x, -1.0)` on a finite input: `1/0 = +inf`, otherwise the
finite reciprocal. -/
def npPowNegOne (x : ℚ) : NpFloatQ :=
  if x = 0 then .inf else .fin x⁻¹

/-- Model of the guard `r[np.isinf(r)] = 0.0` applied to one value: infinities are
replaced by zero, finite values pass through. -/
def zeroInf : NpFloatQ → ℚ
  | .inf => 0
  | .fin x => x

/-- Sparse branch of `compute_xu_asymmetric_normalized_matrix`:
`rowsum = np.abs(B).sum(1); r_inv = np.power(rowsum, -1); r_inv[isinf] = 0;`
`diags(r_inv).dot(B)`. -/
def xuSparseQ (B : QMat) : QMat :=
  (diagQ B.rows (fun i => zeroInf (npPowNegOne (absRowsumQ B i)))).mul B

/-- Dense branch of `compute_xu_asymmetric_normalized_matrix`:
`Di = np.sum(np.abs(B), axis=1); Di2 = np.diag(np.power(Di, -1));`
`Di2[np.isinf(Di2)] = 0.0; Di2.dot(np.array(B))`.  The infinity guard is applied
to the whole matrix `Di2` (off-diagonal zeros are finite, so it only affects the
diagonal). -/
def xuDenseQ (B : QMat) : QMat :=
  QMat.mul
    ⟨B.rows, B.rows,
      fun i j => zeroInf (if i = j then npPowNegOne (absRowsumQ B i) else .fin 0)⟩
    B

/-- Storage mode of a scipy/numpy matrix object. -/
inductive Tag where
  | dense : Tag
  | sparse : Tag

/-- A Python object passed to the normalizers: a dense `ndarray`, a sparse
`csr_matrix` (both carrying their numeric content), or an object of any other
type (the `other` constructor), on which the `isinstance` dispatch fails. -/
inductive NpObj where
  | mat : Tag → QMat → NpObj
  | other : NpObj

/-- Error message raised by `_compute_D1/_compute_D2/_compute_D3/_compute_D5`. -/
def typeErrMsgD : String := "Input type must be either ndarray or csr_matrix."

/-- Error message raised by `_compute_B1T_normalized_matrix` and
`_compute_B2T_normalized_matrix`. -/
def typeErrMsgB : String := "input type must be either ndarray or csr_matrix"

/-- Shared numeric content of `_compute_D2` (the `csr_matrix` branch uses
`diags(np.maximum(rowsum, 1))`, the `ndarray` branch `np.diag(np.maximum(rowsum, 1))`;
both are the same diagonal matrix): `diag(max(rowsum(|B2|), 1))` of size `B2.rows`. -/
def computeD2q (B2 : QMat) : QMat :=
  diagQ B2.rows (fun i => max (absRowsumQ B2 i) 1)

/-- Shared numeric content of `_compute_D1`:
`rowsum = (np.abs(B1) @ D2).sum(axis=1); D1 = 2 * diag(rowsum)` of size `B1.rows`. -/
def computeD1q (B1 D2 : QMat) : QMat :=
  QMat.scale 2 (diagQ B1.rows (fun i => QMat.rowsum ((QMat.abs B1).mul D2) i))

/-- Shared numeric content of `_compute_D3`: `diag(np.ones(B2.shape[1]) / 3)`,
size `B2.cols`. -/
def computeD3q (B2 : QMat) : QMat :=
  diagQ B2.cols (fun _ => 1 / 3)

/-- Shared numeric content of `_compute_D5`: `diag(np.abs(B2).sum(axis=1))`,
size `B2.rows`, not floored. -/
def computeD5q (B2 : QMat) : QMat :=
  diagQ B2.rows (fun i => absRowsumQ B2 i)

/-- Numeric content of `_compute_B1_normalized_matrix`: `pinv(D1) @ B1` with
`D2 = _compute_D2(B2)`, `D1 = _compute_D1(B1, D2)`. -/
def computeB1nQ (B1 B2 : QMat) : QMat :=
  (QMat.pinvDiag (computeD1q B1 (computeD2q B2))).mul B1

/-- Numeric content of `_compute_B1T_normalized_matrix`: `D2 @ B1.T @ pinv(D1)`
(left-associated, as in Python). -/
def computeB1TnQ (B1 B2 : QMat) : QMat :=
  ((computeD2q B2).mul (QMat.transpose B1)).mul
    (QMat.pinvDiag (computeD1q B1 (computeD2q B2)))

/-- Numeric content of `_compute_B2_normalized_matrix`: `B2 @ D3`. -/
def computeB2nQ (B2 : QMat) : QMat :=
  B2.mul (computeD3q B2)

/-- Numeric content of `_compute_B2T_normalized_matrix`: `B2.T @ pinv(D5)`. -/
def computeB2TnQ (B2 : QMat) : QMat :=
  (QMat.transpose B2).mul (QMat.pinvDiag (computeD5q B2))

/-- Dispatch of `_compute_D2`: `csr_matrix` branch, `ndarray` branch, else
`raise TypeError(...)`.  Both matrix branches compute the same diagonal content
and keep the storage mode of the input. -/
def computeD2d : NpObj → Except String NpObj
  | .mat .sparse M => .ok (.mat .sparse (computeD2q M))
  | .mat .dense M => .ok (.mat .dense (computeD2q M))
  | .other => .error typeErrMsgD

/-- Dispatch of `_compute_D1(B1, D2)`.  The `isinstance` tests inspect `B1` only;
`D2` is always an already-built degree matrix, passed here by its numeric content. -/
def computeD1d : NpObj → QMat → Except String NpObj
  | .mat .sparse M, D2 => .ok (.mat .sparse (computeD1q M D2))
  | .mat .dense M, D2 => .ok (.mat .dense (computeD1q M D2))
  | .other, _ => .error typeErrMsgD

/-- Dispatch of `_compute_D3`. -/
def computeD3d : NpObj → Except String NpObj
  | .mat .sparse M => .ok (.mat .sparse (computeD3q M))
  | .mat .dense M => .ok (.mat .dense (computeD3q M))
  | .other => .error typeErrMsgD

/-- Dispatch of `_compute_D5`. -/
def computeD5d : NpObj → Except String NpObj
  | .mat .sparse M => .ok (.mat .sparse (computeD5q M))
  | .mat .dense M => .ok (.mat .dense (computeD5q M))
  | .other => .error typeErrMsgD

/-- Dispatch of `_compute_B1_normalized_matrix(B1, B2)`: compute `D2` from `B2`,
then `D1` from `B1` (each raising `TypeError` on an unsupported type), then branch
on the type of `B1` for the pseudo-inverse and return `pinv(D1) @ B1` in `B1`'s
storage mode.  The source has no `else` on the final `isinstance` chain: reaching
it with an unsupported `B1` would be an unbound-local failure, but `_compute_D1`
has already raised `TypeError` in that case, so the arm is dead code (likewise the
`.ok .other` arms, which no `computeD1d`/`computeD2d` result ever produces). -/
def computeB1nD (B1 B2 : NpObj) : Except String NpObj :=
  match computeD2d B2 with
  | .error e => .error e
  | .ok (.mat _ D2M) =>
    match computeD1d B1 D2M with
    | .error e => .error e
    | .ok (.mat _ D1M) =>
      match B1 with
      | .mat .dense M1 => .ok (.mat .dense ((QMat.pinvDiag D1M).mul M1))
      | .mat .sparse M1 => .ok (.mat .sparse ((QMat.pinvDiag D1M).mul M1))
      | .other => .error "UnboundLocalError"
    | .ok .other => .error "UnboundLocalError"
  | .ok .other => .error "UnboundLocalError"

/-- Dispatch of `_compute_B1T_normalized_matrix(B1, B2)`: like `computeB1nD` but
returning `D2 @ B1.T @ pinv(D1)`; here the final `isinstance` chain does have an
explicit `raise TypeError` (message `typeErrMsgB`), though `_compute_D1` fires
first on an unsupported `B1`. -/
def computeB1TnD (B1 B2 : NpObj) : Except String NpObj :=
  match computeD2d B2 with
  | .error e => .error e
  | .ok (.mat _ D2M) =>
    match computeD1d B1 D2M with
    | .error e => .error e
    | .ok (.mat _ D1M) =>
      match B1 with
      | .mat .dense M1 =>
          .ok (.mat .dense ((D2M.mul (QMat.transpose M1)).mul (QMat.pinvDiag D1M)))
      | .mat .sparse M1 =>
          .ok (.mat .sparse ((D2M.mul (QMat.transpose M1)).mul (QMat.pinvDiag D1M)))
      | .other => .error typeErrMsgB
    | .ok .other => .error "UnboundLocalError"
  | .ok .other => .error "UnboundLocalError"

/-- Dispatch of `_compute_B2_normalized_matrix(B2)`: `D3 = _compute_D3(B2)`
(raising `TypeError` on an unsupported type), then `B2 @ D3` in `B2`'s storage
mode. -/
def computeB2nD (B2 : NpObj) : Except String NpObj :=
  match computeD3d B2 with
  | .error e => .error e
  | .ok D3o =>
    match B2, D3o with
    | .mat t M, .mat _ D3M => .ok (.mat t (M.mul D3M))
    | _, _ => .error "UnboundLocalError"

/-- Dispatch of `_compute_B2T_normalized_matrix(B2)`: `D5 = _compute_D5(B2)`
(raising `TypeError` on an unsupported type), then branch on the type of `B2` for
the pseudo-inverse and return `B2.T @ pinv(D5)`; the trailing
`raise TypeError` (message `typeErrMsgB`) is unreachable because `_compute_D5`
raised first. -/
def computeB2TnD (B2 : NpObj) : Except String NpObj :=
  match computeD5d B2 with
  | .error e => .error e
  | .ok (.mat _ D5M) =>
    match B2 with
    | .mat .dense M => .ok (.mat .dense ((QMat.transpose M).mul (QMat.pinvDiag D5M)))
    | .mat .sparse M => .ok (.mat .sparse ((QMat.transpose M).mul (QMat.pinvDiag D5M)))
    | .other => .error typeErrMsgB
  | .ok .other => .error "UnboundLocalError"

/-- Dispatch of `compute_bunch_normalized_matrices(B1, B2)`: the four normalized
matrices are computed in source order; the first raised exception propagates. -/
def computeBunchD (B1 B2 : NpObj) : Except String (NpObj × NpObj × NpObj × NpObj) :=
  match computeB1nD B1 B2 with
  | .error e => .error e
  | .ok b1n =>
    match computeB1TnD B1 B2 with
    | .error e => .error e
    | .ok b1tn =>
      match computeB2nD B2 with
      | .error e => .error e
      | .ok b2n =>
        match computeB2TnD B2 with
        | .error e => .error e
        | .ok b2tn => .ok (b1n, b1tn, b2n, b2tn)

/-- Dispatch of `compute_xu_asymmetric_normalized_matrix(B, is_sparse)`.  The
branch is selected by the `is_sparse` flag.  On the sparse branch
`diags(r_inv).dot(B)` keeps `B`'s density (sparse times sparse is sparse, sparse
times dense is dense).  The dense branch is modeled for dense input; its behavior
on a sparse `B` (`np.array` of a sparse matrix is a 0-dimensional object array)
and on a non-matrix object is not a documented path and is modeled as an error. -/
def computeXuD : NpObj → Bool → Except String NpObj
  | .mat t M, true => .ok (.mat t (xuSparseQ M))
  | .mat .dense M, false => .ok (.mat .dense (xuDenseQ M))
  | .mat .sparse _, false => .error "unmodeled: np.array applied to a sparse matrix"
  | .other, _ => .error "unmodeled: unsupported operand"

/-- Embedding of `compute_laplacian_normalized_matrix(L)`.  The call
`spl.eigsh(L.asfptype(), k=1, which="LM", return_eigenvectors=False)[0]` is an
external eigen-solver, modeled as a parameter that may fail (scipy raises on
non-square input or non-convergence).  The source performs NO shape check of its
own: it calls the solver directly and returns `L * (1.0 / topeigen_val)`. -/
def computeLaplacianD (solver : QMat → Except String ℚ) (L : QMat) :
    Except String QMat :=
  match solver L with
  | .error e => .error e
  | .ok lam => .ok (QMat.scale (1 / lam) L)

/-- Embedding of `compute_x_laplacian_normalized_matrix(L, Lx)`: first the
explicit `assert L.shape[0] == L.shape[1]`, then the eigen-solver on `L`, then
`Lx * (1.0 / topeig)`. -/
def computeXLaplacianD (solver : QMat → Except String ℚ) (L Lx : QMat) :
    Except String QMat :=
  if L.rows = L.cols then
    match solver L with
    | .error e => .error e
    | .ok lam => .ok (QMat.scale (1 / lam) Lx)
  else .error "AssertionError"

/-- Model of `A_opt` in `compute_kipf_adjacency_normalized_matrix`:
`np.abs(A_opt) + diags(size * [identity_multiplier])` when `add_identity`,
otherwise `np.abs(A_opt)`.  Entries are genuine reals (finite input stays
finite). -/
def kipfAOpt {n : ℕ} (A : Matrix (Fin n) (Fin n) ℝ) (add : Bool) (mult : ℝ) :
    Matrix (Fin n) (Fin n) ℝ :=
  if add then Matrix.of (fun i j => |A i j|) + Matrix.diagonal (fun _ => mult)
  else Matrix.of (fun i j => |A i j|)

/-- Model of `rowsum = np.array(A_opt.sum(1))` at row `i`. -/
def kipfRowsum {n : ℕ} (A : Matrix (Fin n) (Fin n) ℝ) (add : Bool) (mult : ℝ)
    (i : Fin n) : ℝ :=
  ∑ j, kipfAOpt A add mult i j

/-- Model of the two lines `r_inv_sqrt = np.power(rowsum, -0.5).flatten();`
`r_inv_sqrt[np.isinf(r_inv_sqrt)] = 0.0` on one value `x`:
for `x < 0`, `np.power(x, -0.5)` is NaN (modeled `none`), which `np.isinf` does
NOT catch, so it survives the guard; for `x = 0` it is `+inf`, replaced by `0`;
for `x > 0` it is the finite value `1 / sqrt x`. -/
noncomputable def rInvSqrtG (x : ℝ) : Option ℝ :=
  if x < 0 then none else if x = 0 then some 0 else some (Real.sqrt x)⁻¹

/-- Multiplication of possibly-NaN float values: NaN poisons the product (after
the infinity guard no infinities remain, so only NaN and finite values occur). -/
def optMul (a b : Option ℝ) : Option ℝ :=
  a.bind fun x => b.map fun y => x * y

/-- Entry `(i, j)` of the value returned by
`compute_kipf_adjacency_normalized_matrix`, mirroring
`A_opt.dot(r_mat_inv_sqrt).transpose().dot(r_mat_inv_sqrt)`:
the `(i, j)` entry of `(A_opt @ R).T @ R` is `(A_opt @ R)[j, i] * r[j]`
with `(A_opt @ R)[j, i] = A_opt[j, i] * r[i]`, `R = diags(r)`. -/
noncomputable def kipfNormalized {n : ℕ} (A : Matrix (Fin n) (Fin n) ℝ)
    (add : Bool) (mult : ℝ) (i j : Fin n) : Option ℝ :=
  optMul
    (optMul (some (kipfAOpt A add mult j i))
      (rInvSqrtG (kipfRowsum A add mult i)))
    (rInvSqrtG (kipfRowsum A add mult j))

/-- The finite scaling vector `d^{-1/2}` when no NaN arises: `0` for a zero row
sum, else the reciprocal square root of the row sum. -/
noncomputable def kipfDInvSqrt {n : ℕ} (A : Matrix (Fin n) (Fin n) ℝ)
    (add : Bool) (mult : ℝ) (i : Fin n) : ℝ :=
  if kipfRowsum A add mult i = 0 then 0
  else (Real.sqrt (kipfRowsum A add mult i))⁻¹

/-- Moore–Penrose characterization used by the Bunch claims: `P` is the
pseudo-inverse of `A` when the four Penrose equations hold (as mathematical
matrices, i.e. up to `QMat.Ext`). -/
def IsMoorePenrose (A P : QMat) : Prop :=
  QMat.Ext (A.mul (P.mul A)) A
  ∧ QMat.Ext (P.mul (A.mul P)) P
  ∧ QMat.Ext (QMat.transpose (A.mul P)) (A.mul P)
  ∧ QMat.Ext (QMat.transpose (P.mul A)) (P.mul A)

/-- The degree matrix `D2` written directly from the claimed formula:
`diag(max(rowsum(|B2|), 1))`. -/
def bunchD2spec (B2 : QMat) : QMat :=
  diagQ B2.rows (fun k => max (absRowsumQ B2 k) 1)

/-- The degree matrix `D1` written directly from the claimed formula
`2 · diag(rowsum(|B1| · D2))`, with the product against the diagonal `D2`
collapsed: entry `i` of the diagonal is `2 · Σ_k |B1[i,k]| · max(rowsum(|B2|)_k, 1)`. -/
def bunchD1spec (B1 B2 : QMat) : QMat :=
  diagQ B1.rows
    (fun i => 2 * ∑ k ∈ Finset.range B1.cols,
      |B1.entry i k| * max (absRowsumQ B2 k) 1)

/-- The degree matrix `D5` written directly from the claimed formula:
`diag(rowsum(|B2|))`, unfloored. -/
def bunchD5spec (B2 : QMat) : QMat :=
  diagQ B2.rows (fun i => absRowsumQ B2 i)

/-- Statement of claim C3 at a shape-compatible pair `(B1, B2)`:
`compute_bunch_normalized_matrices` returns exactly
`(pinv(D1)·B1, D2·B1ᵀ·pinv(D1), B2·D3, B2ᵀ·pinv(D5))` in both storage modes,
with `D1, D2, D3, D5` the claimed diagonal matrices and `pinv` the Moore–Penrose
pseudo-inverse (total, so singular `D1` or `D5` does not raise). -/
def BunchFormulaStatement (B1 B2 : QMat) : Prop :=
  computeBunchD (.mat .dense B1) (.mat .dense B2)
      = .ok (.mat .dense (computeB1nQ B1 B2), .mat .dense (computeB1TnQ B1 B2),
          .mat .dense (computeB2nQ B2), .mat .dense (computeB2TnQ B2))
  ∧ computeBunchD (.mat .sparse B1) (.mat .sparse B2)
      = .ok (.mat .sparse (computeB1nQ B1 B2), .mat .sparse (computeB1TnQ B1 B2),
          .mat .sparse (computeB2nQ B2), .mat .sparse (computeB2TnQ B2))
  ∧ QMat.Ext (computeB1nQ B1 B2) ((QMat.pinvDiag (bunchD1spec B1 B2)).mul B1)
  ∧ QMat.Ext (computeB1TnQ B1 B2)
      (((bunchD2spec B2).mul (QMat.transpose B1)).mul
        (QMat.pinvDiag (bunchD1spec B1 B2)))
  ∧ QMat.Ext (computeB2nQ B2) (B2.mul (diagQ B2.cols (fun _ => 1 / 3)))
  ∧ QMat.Ext (computeB2TnQ B2)
      ((QMat.transpose B2).mul (QMat.pinvDiag (bunchD5spec B2)))
  ∧ IsMoorePenrose (bunchD1spec B1 B2) (QMat.pinvDiag (bunchD1spec B1 B2))
  ∧ IsMoorePenrose (bunchD5spec B2) (QMat.pinvDiag (bunchD5spec B2))

/-- Statement of claim C8 at `(B1, B2)`: the four outputs of the Bunch
normalization have shapes `(n0, n1)`, `(n1, n0)`, `(n1, n2)`, `(n2, n1)`. -/
def BunchShapeStatement (B1 B2 : QMat) : Prop :=
  computeBunchD (.mat .dense B1) (.mat .dense B2)
      = .ok (.mat .dense (computeB1nQ B1 B2), .mat .dense (computeB1TnQ B1 B2),
          .mat .dense (computeB2nQ B2), .mat .dense (computeB2TnQ B2))
  ∧ (computeB1nQ B1 B2).rows = B1.rows ∧ (computeB1nQ B1 B2).cols = B1.cols
  ∧ (computeB1TnQ B1 B2).rows = B1.cols ∧ (computeB1TnQ B1 B2).cols = B1.rows
  ∧ (computeB2nQ B2).rows = B2.rows ∧ (computeB2nQ B2).cols = B2.cols
  ∧ (computeB2TnQ B2).rows = B2.cols ∧ (computeB2TnQ B2).cols = B2.rows

/-- Statement of claim C9's helper part: every degree-matrix and
boundary-normalizer helper raises the explicit `TypeError` (whose message names
`ndarray` and `csr_matrix`) when handed an unsupported object. -/
def BunchTypeErrorHelpers : Prop :=
  (∀ D2M : QMat, computeD1d .other D2M = .error typeErrMsgD)
  ∧ computeD2d .other = .error typeErrMsgD
  ∧ computeD3d .other = .error typeErrMsgD
  ∧ computeD5d .other = .error typeErrMsgD
  ∧ (∀ o : NpObj, computeB1nD .other o = .error typeErrMsgD
      ∧ computeB1nD o .other = .error typeErrMsgD
      ∧ computeB1TnD .other o = .error typeErrMsgD
      ∧ computeB1TnD o .other = .error typeErrMsgD)
  ∧ computeB2nD .other = .error typeErrMsgD
  ∧ computeB2TnD .other = .error typeErrMsgD

/-- Statement of the (amended) claim C2 for the Kipf normalizer: whenever the
identity multiplier is nonnegative when used (so no row sum of `A_opt` can be
negative), every output entry is a genuine float (`isSome`: no NaN survives, and
the guard has already replaced infinities), and a zero row sum yields an
all-zero output row. -/
def KipfNoNanStatement : Prop :=
  ∀ (n : ℕ) (A : Matrix (Fin n) (Fin n) ℝ) (add : Bool) (mult : ℝ),
    (add = true → 0 ≤ mult) →
    ∀ i j : Fin n,
      (kipfNormalized A add mult i j).isSome = true
      ∧ (kipfRowsum A add mult i = 0 → kipfNormalized A add mult i j = some 0)

/-- Statement of claim C2 for the Xu normalizer: in both branches, a row with
zero total absolute degree is returned as an all-zero row (the zero-degree guard
turns the infinite scale into 0). -/
def XuZeroRowStatement : Prop :=
  ∀ (B : QMat) (i : ℕ), absRowsumQ B i = 0 →
    ∀ j : ℕ, (xuSparseQ B).entry i j = 0 ∧ (xuDenseQ B).entry i j = 0

/-- Statement of the (amended) claim C4, part 1:
`compute_x_laplacian_normalized_matrix` fails fast for a non-square `L` via the
explicit `assert`, before the eigen-solver is consulted (the result is the
assertion error for EVERY solver behavior). -/
def XLapFailFastStatement : Prop :=
  ∀ (solver : QMat → Except String ℚ) (L Lx : QMat),
    L.rows ≠ L.cols → computeXLaplacianD solver L Lx = .error "AssertionError"

/-- Statement of the (amended) claim C4, part 2:
`compute_laplacian_normalized_matrix` performs NO shape check of its own: for any
matrix `L` whatsoever — square or not — it hands `L` to the eigen-solver and
returns `L` scaled by the reciprocal of whatever the solver yields. -/
def LapNoCheckStatement : Prop :=
  ∀ (lam : ℚ) (L : QMat),
    computeLaplacianD (fun _ => .ok lam) L = .ok (QMat.scale (1 / lam) L)

/-- Concrete B1 of the C7 scenario: 1×3 zero matrix. -/
def bunchB1c : QMat := ⟨1, 3, fun _ _ => 0⟩

/-- Concrete B2 of the C7 scenario: 3×1 all-ones column. -/
def bunchB2c : QMat := ⟨3, 1, fun _ _ => 1⟩

/-- Concrete 1×1 boundary pair used by witnesses. -/
def bunchB1w : QMat := ⟨1, 1, fun _ _ => 1⟩

/-- Concrete 1×1 boundary pair used by witnesses. -/
def bunchB2w : QMat := ⟨1, 1, fun _ _ => 1⟩

/-- Concrete 1×2 zero matrix (a zero-degree row) used by witnesses. -/
def xuZeroW : QMat := ⟨1, 2, fun _ _ => 0⟩

/-- Concrete 1×2 matrix with row sum of absolute values 4, used by witnesses. -/
def xuRowW : QMat := ⟨1, 2, fun _ j => if j = 0 then 3 else -1⟩

/-- Concrete non-square (1×2) operator for the Laplacian shape-check claim. -/
def lapNonSquare : QMat := ⟨1, 2, fun _ _ => 0⟩

/-- Concrete 2×2 NON-symmetric adjacency input `[[0, 1], [4, 0]]` whose absolute
row sums (1 and 4) are perfect squares. -/
noncomputable def kipfAsym : Matrix (Fin 2) (Fin 2) ℝ := !![0, 1; 4, 0]

/-- Concrete 2×2 symmetric adjacency input `[[0, 4], [4, 0]]`. -/
noncomputable def kipfSym : Matrix (Fin 2) (Fin 2) ℝ := !![0, 4; 4, 0]

/-- Concrete 1×1 zero adjacency input. -/
noncomputable def kipfZero1 : Matrix (Fin 1) (Fin 1) ℝ := !![0]

theorem QMat.Ext.refl (M : QMat) : QMat.Ext M M :=
  ⟨rfl, rfl, fun _ _ _ _ => rfl⟩

theorem QMat.Ext.of_eq {M N : QMat} (h : M = N) : QMat.Ext M N :=
  h ▸ QMat.Ext.refl M

theorem QMat.entry_ext (M N : QMat) (hr : M.rows = N.rows) (hc : M.cols = N.cols)
    (he : ∀ i j, M.entry i j = N.entry i j) : M = N := by
  cases M
  cases N
  simp only [QMat.mk.injEq]
  exact ⟨hr, hc, funext fun i => funext fun j => he i j⟩

theorem diagQ_mul_entry (n : ℕ) (a : ℕ → ℚ) (M : QMat) (i j : ℕ) :
    ((diagQ n a).mul M).entry i j = if i < n then a i * M.entry i j else 0 := by
  show (∑ k ∈ Finset.range n, (if i = k then a i else 0) * M.entry k j) = _
  rw [Finset.sum_congr rfl (fun k _ => by rw [ite_mul, zero_mul])]
  rw [Finset.sum_ite_eq]
  simp [Finset.mem_range]

theorem mul_diagQ_entry (M : QMat) (n : ℕ) (b : ℕ → ℚ) (i j : ℕ) :
    (M.mul (diagQ n b)).entry i j
      = if j < M.cols then M.entry i j * b j else 0 := by
  show (∑ k ∈ Finset.range M.cols, M.entry i k * (if k = j then b k else 0)) = _
  rw [Finset.sum_congr rfl (fun k _ => by rw [mul_ite, mul_zero])]
  rw [Finset.sum_ite_eq']
  simp [Finset.mem_range]

theorem diagQ_mul_diagQ_entry (n : ℕ) (a b : ℕ → ℚ) (i j : ℕ) :
    ((diagQ n a).mul (diagQ n b)).entry i j
      = if i = j ∧ i < n then a i * b i else 0 := by
  rw [diagQ_mul_entry]
  show (if i < n then a i * (if i = j then b i else 0) else 0) = _
  by_cases h1 : i < n <;> by_cases h2 : i = j <;> simp [h1, h2]

theorem pinvDiag_diagQ (n : ℕ) (d : ℕ → ℚ) :
    QMat.pinvDiag (diagQ n d) = diagQ n (fun i => (d i)⁻¹) := by
  apply QMat.entry_ext
  · rfl
  · rfl
  · intro i j
    show (if i = j then (if i = i then d i else 0)⁻¹ else 0)
        = if i = j then (d i)⁻¹ else 0
    simp

theorem diag_triple_entry (n : ℕ) (a b c : ℕ → ℚ) (i j : ℕ) :
    ((diagQ n a).mul ((diagQ n b).mul (diagQ n c))).entry i j
      = if i = j ∧ i < n then a i * (b i * c i) else 0 := by
  rw [diagQ_mul_entry]
  by_cases h1 : i < n
  · rw [if_pos h1, diagQ_mul_diagQ_entry]
    by_cases h2 : i = j <;> simp [h1, h2]
  · rw [if_neg h1]
    simp [h1]

theorem diagQ_moore_penrose (n : ℕ) (d : ℕ → ℚ) :
    IsMoorePenrose (diagQ n d) (QMat.pinvDiag (diagQ n d)) := by
  rw [pinvDiag_diagQ]
  refine ⟨⟨rfl, rfl, ?_⟩, ⟨rfl, rfl, ?_⟩, ⟨rfl, rfl, ?_⟩, ⟨rfl, rfl, ?_⟩⟩
  · intro i hi j hj
    have hi' : i < n := hi
    rw [diag_triple_entry]
    by_cases h2 : i = j
    · subst h2
      have hd : d i * ((d i)⁻¹ * d i) = d i := by
        rcases eq_or_ne (d i) 0 with h | h
        · rw [h]; ring
        · rw [inv_mul_cancel₀ h, mul_one]
      simp [diagQ, hi', hd]
    · simp [diagQ, h2]
  · intro i hi j hj
    have hi' : i < n := hi
    rw [diag_triple_entry]
    by_cases h2 : i = j
    · subst h2
      have hd : (d i)⁻¹ * (d i * (d i)⁻¹) = (d i)⁻¹ := by
        rcases eq_or_ne (d i) 0 with h | h
        · rw [h]; ring
        · rw [mul_inv_cancel₀ h, mul_one]
      simp [diagQ, hi', hd]
    · simp [diagQ, h2]
  · intro i hi j hj
    show ((diagQ n d).mul (diagQ n (fun i => (d i)⁻¹))).entry j i
        = ((diagQ n d).mul (diagQ n (fun i => (d i)⁻¹))).entry i j
    rw [diagQ_mul_diagQ_entry, diagQ_mul_diagQ_entry]
    by_cases h2 : i = j
    · subst h2; rfl
    · have h2' : ¬ j = i := fun h => h2 h.symm
      simp [h2, h2']
  · intro i hi j hj
    show ((diagQ n (fun i => (d i)⁻¹)).mul (diagQ n d)).entry j i
        = ((diagQ n (fun i => (d i)⁻¹)).mul (diagQ n d)).entry i j
    rw [diagQ_mul_diagQ_entry, diagQ_mul_diagQ_entry]
    by_cases h2 : i = j
    · subst h2; rfl
    · have h2' : ¬ j = i := fun h => h2 h.symm
      simp [h2, h2']

theorem computeD1q_collapse (B1 B2 : QMat) (h : B1.cols = B2.rows) :
    computeD1q B1 (computeD2q B2) = bunchD1spec B1 B2 := by
  apply QMat.entry_ext
  · rfl
  · rfl
  · intro i j
    show 2 * (if i = j then QMat.rowsum ((QMat.abs B1).mul (computeD2q B2)) i else 0)
        = if i = j
          then 2 * ∑ k ∈ Finset.range B1.cols,
            |B1.entry i k| * max (absRowsumQ B2 k) 1
          else 0
    rw [mul_ite, mul_zero]
    by_cases hij : i = j
    · rw [if_pos hij, if_pos hij]
      congr 1
      show (∑ k ∈ Finset.range (computeD2q B2).cols,
          ((QMat.abs B1).mul (computeD2q B2)).entry i k) = _
      have hc : (computeD2q B2).cols = B1.cols := h.symm
      rw [hc]
      apply Finset.sum_congr rfl
      intro k hk
      rw [show computeD2q B2 = diagQ B2.rows (fun i => max (absRowsumQ B2 i) 1)
        from rfl]
      rw [mul_diagQ_entry]
      rw [if_pos (show k < (QMat.abs B1).cols from Finset.mem_range.mp hk)]
      rfl
    · rw [if_neg hij, if_neg hij]

theorem zeroInf_npPowNegOne (x : ℚ) : zeroInf (npPowNegOne x) = x⁻¹ := by
  unfold npPowNegOne
  by_cases h : x = 0 <;> simp [h, zeroInf]

theorem absRowsumQ_nonneg (B : QMat) (i : ℕ) : 0 ≤ absRowsumQ B i := by
  unfold absRowsumQ QMat.rowsum
  exact Finset.sum_nonneg fun j _ => abs_nonneg (B.entry i j)

theorem xuSparseQ_entry (B : QMat) (i j : ℕ) :
    (xuSparseQ B).entry i j
      = if i < B.rows then (absRowsumQ B i)⁻¹ * B.entry i j else 0 := by
  unfold xuSparseQ
  rw [diagQ_mul_entry, zeroInf_npPowNegOne]

theorem xuDenseQ_eq_sparseQ (B : QMat) : xuDenseQ B = xuSparseQ B := by
  apply QMat.entry_ext
  · rfl
  · rfl
  · intro i j
    show (∑ k ∈ Finset.range B.rows,
        zeroInf (if i = k then npPowNegOne (absRowsumQ B i) else .fin 0) * B.entry k j)
      = ∑ k ∈ Finset.range B.rows,
        (if i = k then zeroInf (npPowNegOne (absRowsumQ B i)) else 0) * B.entry k j
    apply Finset.sum_congr rfl
    intro k _
    congr 1
    by_cases hik : i = k <;> simp [hik, zeroInf]

theorem kipfAOpt_apply {n : ℕ} (A : Matrix (Fin n) (Fin n) ℝ) (add : Bool)
    (mult : ℝ) (i j : Fin n) :
    kipfAOpt A add mult i j
      = |A i j| + (if add then (if i = j then mult else 0) else 0) := by
  unfold kipfAOpt
  cases add
  · simp
  · simp [Matrix.add_apply, Matrix.diagonal_apply]

theorem kipfRowsum_eq {n : ℕ} (A : Matrix (Fin n) (Fin n) ℝ) (add : Bool)
    (mult : ℝ) (i : Fin n) :
    kipfRowsum A add mult i = (∑ j, |A i j|) + (if add then mult else 0) := by
  unfold kipfRowsum
  rw [Finset.sum_congr rfl (fun j _ => kipfAOpt_apply A add mult i j)]
  rw [Finset.sum_add_distrib]
  congr 1
  cases add
  · simp
  · simp [Finset.sum_ite_eq]

theorem kipfRowsum_nonneg {n : ℕ} (A : Matrix (Fin n) (Fin n) ℝ) (add : Bool)
    (mult : ℝ) (hm : add = true → 0 ≤ mult) (i : Fin n) :
    0 ≤ kipfRowsum A add mult i := by
  rw [kipfRowsum_eq]
  have h1 : 0 ≤ ∑ j, |A i j| := Finset.sum_nonneg fun j _ => abs_nonneg (A i j)
  have h2 : 0 ≤ (if add then mult else 0 : ℝ) := by
    cases add
    · simp
    · simpa using hm rfl
  linarith

theorem rInvSqrtG_rowsum {n : ℕ} (A : Matrix (Fin n) (Fin n) ℝ) (add : Bool)
    (mult : ℝ) (i : Fin n) (hx : 0 ≤ kipfRowsum A add mult i) :
    rInvSqrtG (kipfRowsum A add mult i) = some (kipfDInvSqrt A add mult i) := by
  unfold rInvSqrtG kipfDInvSqrt
  rw [if_neg (not_lt.mpr hx)]
  split_ifs with h <;> rfl

theorem absRowsumQ_def (B : QMat) (i : ℕ) :
    absRowsumQ B i = ∑ j ∈ Finset.range B.cols, |B.entry i j| := rfl

/-- Claim C5 (confirmed): for every logical matrix `B`, the sparse path
(`is_sparse=True` on a `csr_matrix`) and the dense path (`is_sparse=False` on an
`ndarray`) of `compute_xu_asymmetric_normalized_matrix` return the same
mathematical matrix, and each branch keeps its own storage mode
(sparse in → sparse out, dense in → dense out).  In the exact rational embedding
the "numerically equal within tolerance" clause is exact equality. -/
theorem xu_sparse_dense_agree : ∀ M : QMat,
    computeXuD (.mat .sparse M) true = .ok (.mat .sparse (xuSparseQ M))
    ∧ computeXuD (.mat .dense M) false = .ok (.mat .dense (xuDenseQ M))
    ∧ QMat.Ext (xuSparseQ M) (xuDenseQ M) := by
  intro M
  exact ⟨rfl, rfl, QMat.Ext.of_eq (xuDenseQ_eq_sparseQ M).symm⟩

/-- Claim C6 (confirmed): `_compute_D2(B2)` equals `diag(max(rowsum(|B2|), 1))`
in both storage modes; every diagonal entry is at least 1; and the floor changes
the value exactly on the rows whose absolute row sum is below 1. -/
theorem d2_floor_property : ∀ (t : Tag) (M : QMat),
    computeD2d (.mat t M) = .ok (.mat t (computeD2q M))
    ∧ QMat.Ext (computeD2q M) (bunchD2spec M)
    ∧ ∀ i : ℕ, 1 ≤ (computeD2q M).entry i i
        ∧ ((computeD2q M).entry i i ≠ absRowsumQ M i ↔ absRowsumQ M i < 1) := by
  intro t M
  refine ⟨by cases t <;> rfl, QMat.Ext.of_eq rfl, ?_⟩
  intro i
  have he : (computeD2q M).entry i i = max (absRowsumQ M i) 1 := by
    show (if i = i then max (absRowsumQ M i) 1 else 0) = _
    simp
  constructor
  · rw [he]
    exact le_max_right _ _
  · rw [he]
    constructor
    · intro hne
      by_contra hge
      push_neg at hge
      exact hne (max_eq_left hge)
    · intro hlt
      rw [max_eq_right (le_of_lt hlt)]
      exact (ne_of_lt hlt).symm

/-- Claim C10 (confirmed): in both branches of the Xu normalizer, each in-range
output row is all zeros exactly when the row's absolute degree is zero, and
otherwise holds `B[i,j]` divided by the absolute row sum, so its absolute values
sum to exactly 1 in exact arithmetic. -/
theorem xu_row_normalization : ∀ (B : QMat) (i : ℕ), i < B.rows →
    (absRowsumQ B i = 0 → ∀ j : ℕ,
        (xuSparseQ B).entry i j = 0 ∧ (xuDenseQ B).entry i j = 0)
    ∧ (absRowsumQ B i ≠ 0 →
        (∀ j : ℕ, (xuSparseQ B).entry i j = B.entry i j / absRowsumQ B i
          ∧ (xuDenseQ B).entry i j = B.entry i j / absRowsumQ B i)
        ∧ (∑ j ∈ Finset.range B.cols, |(xuSparseQ B).entry i j|) = 1
        ∧ (∑ j ∈ Finset.range B.cols, |(xuDenseQ B).entry i j|) = 1)
    ∧ (absRowsumQ B i = 0 ↔
        ∀ j : ℕ, j < B.cols → (xuSparseQ B).entry i j = 0) := by
  intro B i hi
  have hent : ∀ j, (xuSparseQ B).entry i j = (absRowsumQ B i)⁻¹ * B.entry i j := by
    intro j
    rw [xuSparseQ_entry, if_pos hi]
  have hdent : ∀ j, (xuDenseQ B).entry i j = (absRowsumQ B i)⁻¹ * B.entry i j := by
    intro j
    rw [xuDenseQ_eq_sparseQ]
    exact hent j
  have hsum :
      (∑ j ∈ Finset.range B.cols, |(xuSparseQ B).entry i j|)
        = |(absRowsumQ B i)⁻¹| * absRowsumQ B i := by
    rw [Finset.sum_congr rfl (fun j _ => by rw [hent j, abs_mul])]
    rw [← Finset.mul_sum, ← absRowsumQ_def]
  refine ⟨?_, ?_, ?_⟩
  · intro h0 j
    constructor
    · rw [hent j, h0]
      simp
    · rw [hdent j, h0]
      simp
  · intro hne
    have hpos : 0 < absRowsumQ B i :=
      lt_of_le_of_ne (absRowsumQ_nonneg B i) (Ne.symm hne)
    have hone : (∑ j ∈ Finset.range B.cols, |(xuSparseQ B).entry i j|) = 1 := by
      rw [hsum, abs_of_pos (inv_pos.mpr hpos), inv_mul_cancel₀ hne]
    refine ⟨fun j => ⟨?_, ?_⟩, hone, ?_⟩
    · rw [hent j, inv_mul_eq_div]
    · rw [hdent j, inv_mul_eq_div]
    · rw [Finset.sum_congr rfl (fun j _ => by rw [xuDenseQ_eq_sparseQ])]
      exact hone
  · constructor
    · intro h0 j _
      rw [hent j, h0]
      simp
    · intro hall
      by_contra hne
      have hex : ∃ j ∈ Finset.range B.cols, B.entry i j ≠ 0 := by
        by_contra hno
        push_neg at hno
        apply hne
        rw [absRowsumQ_def]
        apply Finset.sum_eq_zero
        intro j hj
        rw [hno j hj, abs_zero]
      obtain ⟨j, hj, hBij⟩ := hex
      have hz := hall j (Finset.mem_range.mp hj)
      rw [hent j] at hz
      rcases mul_eq_zero.mp hz with h | h
      · exact (inv_ne_zero hne) h
      · exact hBij h

/-- Witness for C10 at the concrete matrix `[[3, -1]]` (absolute row degree 4). -/
theorem xu_row_normalization_witness :
    (∀ j : ℕ, (xuSparseQ xuRowW).entry 0 j = xuRowW.entry 0 j / absRowsumQ xuRowW 0
      ∧ (xuDenseQ xuRowW).entry 0 j = xuRowW.entry 0 j / absRowsumQ xuRowW 0)
    ∧ (∑ j ∈ Finset.range xuRowW.cols, |(xuSparseQ xuRowW).entry 0 j|) = 1
    ∧ (∑ j ∈ Finset.range xuRowW.cols, |(xuDenseQ xuRowW).entry 0 j|) = 1 :=
  (xu_row_normalization xuRowW 0 (by norm_num [xuRowW])).2.1
    (by norm_num [absRowsumQ, QMat.rowsum, QMat.abs, xuRowW, Finset.sum_range_succ])

/-- Claim C2 as amended (corrected): the Kipf normalizer produces no NaN or
infinity and zeroes zero-degree rows PROVIDED the identity multiplier is
nonnegative when the identity is added (the claim's "including negative
multipliers" fails: see `kipf_negative_multiplier_nan`); the Xu normalizer
zeroes zero-degree rows in both branches (its values are always finite in exact
arithmetic, the zero-degree guard replacing the lone infinity by 0). -/
theorem normalizers_no_nan_amended : KipfNoNanStatement ∧ XuZeroRowStatement := by
  constructor
  · intro n A add mult hm i j
    have hri : 0 ≤ kipfRowsum A add mult i := kipfRowsum_nonneg A add mult hm i
    have hrj : 0 ≤ kipfRowsum A add mult j := kipfRowsum_nonneg A add mult hm j
    constructor
    · unfold kipfNormalized
      rw [rInvSqrtG_rowsum A add mult i hri, rInvSqrtG_rowsum A add mult j hrj]
      simp [optMul]
    · intro h0
      unfold kipfNormalized
      rw [rInvSqrtG_rowsum A add mult i hri, rInvSqrtG_rowsum A add mult j hrj]
      have hdi : kipfDInvSqrt A add mult i = 0 := by
        unfold kipfDInvSqrt
        rw [if_pos h0]
      simp [optMul, hdi]
  · intro B i h0 j
    constructor
    · rw [xuSparseQ_entry, h0]
      split_ifs <;> simp
    · rw [xuDenseQ_eq_sparseQ, xuSparseQ_entry, h0]
      split_ifs <;> simp

/-- Counterexample to C2 as stated: with `A = [[0]]`, `add_identity=True` and
`identity_multiplier=-1`, the row sum of `A_opt` is `-1`, `np.power(-1.0, -0.5)`
is NaN, `np.isinf` does not catch NaN, and the NaN reaches the output entry
(modeled as `none`).  So a negative multiplier CAN produce a NaN output from a
NaN-free input. -/
theorem kipf_negative_multiplier_nan :
    kipfNormalized kipfZero1 true (-1) 0 0 = none := by
  have h : kipfRowsum kipfZero1 true (-1) 0 = -1 := by
    rw [kipfRowsum_eq]
    simp [kipfZero1]
  unfold kipfNormalized
  rw [h]
  unfold rInvSqrtG
  rw [if_pos (by norm_num : (-1 : ℝ) < 0)]
  simp [optMul]

/-- Witness for the amended C2: a 1×1 zero adjacency (zero-degree row, no
identity term) yields a defined, zero output entry, and a zero 1×2 matrix is
zeroed by both Xu branches. -/
theorem normalizers_no_nan_witness :
    ((kipfNormalized kipfZero1 false 1 0 0).isSome = true
      ∧ kipfNormalized kipfZero1 false 1 0 0 = some 0)
    ∧ ((xuSparseQ xuZeroW).entry 0 1 = 0 ∧ (xuDenseQ xuZeroW).entry 0 1 = 0) := by
  constructor
  · have h := normalizers_no_nan_amended.1 1 kipfZero1 false 1 (by simp) 0 0
    have h0 : kipfRowsum kipfZero1 false 1 0 = 0 := by
      rw [kipfRowsum_eq]
      simp [kipfZero1]
    exact ⟨h.1, h.2 h0⟩
  · exact normalizers_no_nan_amended.2 xuZeroW 0
      (by norm_num [absRowsumQ, QMat.rowsum, QMat.abs, xuZeroW, Finset.sum_range_succ]) 1

/-- Claim C3 (confirmed): for every shape-compatible pair,
`compute_bunch_normalized_matrices` returns exactly
`(pinv(D1)·B1, D2·B1ᵀ·pinv(D1), B2·D3, B2ᵀ·pinv(D5))` with
`D2 = diag(max(rowsum(|B2|), 1))`, `D1 = 2·diag(rowsum(|B1|·D2))`,
`D3 = diag(1/3)` of size `n2` and `D5 = diag(rowsum(|B2|))` unfloored, where the
`pinv` used satisfies the four Penrose equations (and is total, so a singular
`D1` or `D5` does not raise). -/
theorem bunch_returns_formulas : ∀ (B1 B2 : QMat), B1.cols = B2.rows →
    BunchFormulaStatement B1 B2 := by
  intro B1 B2 h
  have hD1 := computeD1q_collapse B1 B2 h
  refine ⟨rfl, rfl, ?_, ?_, QMat.Ext.of_eq rfl, QMat.Ext.of_eq rfl,
    diagQ_moore_penrose _ _, diagQ_moore_penrose _ _⟩
  · unfold computeB1nQ
    rw [hD1]
    exact QMat.Ext.of_eq rfl
  · unfold computeB1TnQ
    rw [hD1]
    exact QMat.Ext.of_eq rfl

/-- Witness for C3 at the concrete 1×1 pair `B1 = B2 = [[1]]`. -/
theorem bunch_returns_formulas_witness :
    bunchB1w.cols = bunchB2w.rows ∧ BunchFormulaStatement bunchB1w bunchB2w :=
  ⟨rfl, bunch_returns_formulas bunchB1w bunchB2w rfl⟩

/-- Claim C8 (confirmed): for `B1 : (n0, n1)` and `B2 : (n1, n2)` the four outputs
of the Bunch normalization have shapes `(n0, n1)`, `(n1, n0)`, `(n1, n2)`,
`(n2, n1)`. -/
theorem bunch_shape_law : ∀ (B1 B2 : QMat), B1.cols = B2.rows →
    BunchShapeStatement B1 B2 := by
  intro B1 B2 h
  exact ⟨rfl, rfl, rfl, h.symm, rfl, rfl, rfl, rfl, rfl⟩

/-- Witness for C8 at the concrete 1×1 pair `B1 = B2 = [[1]]`. -/
theorem bunch_shape_law_witness :
    bunchB1w.cols = bunchB2w.rows ∧ BunchShapeStatement bunchB1w bunchB2w :=
  ⟨rfl, bunch_shape_law bunchB1w bunchB2w rfl⟩

/-- Claim C9 (confirmed): whenever `B1` or `B2` is neither an `ndarray` nor a
`csr_matrix`, `compute_bunch_normalized_matrices` raises the explicit
`TypeError` whose message (`typeErrMsgD`) names the two accepted
representations, and no tuple is returned; each degree-matrix and
boundary-normalizer helper raises it as well. -/
theorem bunch_type_error : ∀ (o1 o2 : NpObj),
    (o1 = NpObj.other ∨ o2 = NpObj.other) →
    computeBunchD o1 o2 = .error typeErrMsgD ∧ BunchTypeErrorHelpers := by
  have helpers : BunchTypeErrorHelpers := by
    refine ⟨fun M => rfl, rfl, rfl, rfl, ?_, rfl, rfl⟩
    intro o
    refine ⟨?_, rfl, ?_, rfl⟩
    · cases o with
      | mat t M => cases t <;> rfl
      | other => rfl
    · cases o with
      | mat t M => cases t <;> rfl
      | other => rfl
  intro o1 o2 ho
  refine ⟨?_, helpers⟩
  rcases ho with h | h
  · subst h
    cases o2 with
    | mat t M => cases t <;> rfl
    | other => rfl
  · subst h
    cases o1 with
    | mat t M => cases t <;> rfl
    | other => rfl

/-- Witness for C9: an unsupported first argument with a well-typed dense second
argument produces exactly the `TypeError` message. -/
theorem bunch_type_error_witness :
    (NpObj.other = NpObj.other ∨ NpObj.mat Tag.dense bunchB2w = NpObj.other)
    ∧ computeBunchD NpObj.other (NpObj.mat Tag.dense bunchB2w) = .error typeErrMsgD
    ∧ BunchTypeErrorHelpers :=
  ⟨Or.inl rfl,
    bunch_type_error NpObj.other (NpObj.mat Tag.dense bunchB2w) (Or.inl rfl)⟩

/-- Claim C4 as amended (corrected): only
`compute_x_laplacian_normalized_matrix` fails fast on a non-square `L`, via its
explicit `assert`, independently of the eigen-solver;
`compute_laplacian_normalized_matrix` performs no shape check at all and simply
returns the solver-scaled matrix for any shape (the claim's "each of the two"
fails: see `laplacian_no_shape_check_counterexample`). -/
theorem laplacian_shape_check_amended :
    XLapFailFastStatement ∧ LapNoCheckStatement := by
  constructor
  · intro solver L Lx h
    unfold computeXLaplacianD
    rw [if_neg h]
  · intro lam L
    rfl

/-- Counterexample to C4 as stated: `compute_laplacian_normalized_matrix` does
NOT fail fast on the non-square 1×2 input — with an eigen-solver that returns 2
it happily returns the scaled non-square matrix, so no assertion or shape check
ran before the eigenvalue computation. -/
theorem laplacian_no_shape_check_counterexample :
    lapNonSquare.rows ≠ lapNonSquare.cols
    ∧ computeLaplacianD (fun _ => .ok 2) lapNonSquare
        = .ok (QMat.scale (1 / 2) lapNonSquare) :=
  ⟨by decide, rfl⟩

/-- Witness for the amended C4 at the concrete non-square 1×2 input. -/
theorem laplacian_shape_check_witness :
    computeXLaplacianD (fun _ => .ok 1) lapNonSquare lapNonSquare
        = .error "AssertionError"
    ∧ computeLaplacianD (fun _ => .ok 2) lapNonSquare
        = .ok (QMat.scale (1 / 2) lapNonSquare) :=
  ⟨laplacian_shape_check_amended.1 _ _ _ (by decide),
    laplacian_shape_check_amended.2 2 lapNonSquare⟩

/-- Claim C7 (confirmed): for `B2` the 3×1 all-ones column and `B1` the 1×3 zero
matrix, `D2` is the 3×3 diagonal with every (floored) diagonal entry 1, `D3` is
the 1×1 matrix `[1/3]`, `B2_norm` is the column `[1/3, 1/3, 1/3]`, `D1` is the
1×1 zero matrix, its pseudo-inverse is the zero matrix, and `B1_norm` is the 1×3
zero matrix. -/
theorem bunch_concrete_scenario :
    QMat.Ext (computeD2q bunchB2c) (diagQ 3 (fun _ => 1))
    ∧ QMat.Ext (computeD3q bunchB2c) (diagQ 1 (fun _ => 1 / 3))
    ∧ QMat.Ext (computeB2nQ bunchB2c) ⟨3, 1, fun _ _ => 1 / 3⟩
    ∧ QMat.Ext (computeD1q bunchB1c (computeD2q bunchB2c)) ⟨1, 1, fun _ _ => 0⟩
    ∧ QMat.Ext (QMat.pinvDiag (computeD1q bunchB1c (computeD2q bunchB2c)))
        ⟨1, 1, fun _ _ => 0⟩
    ∧ QMat.Ext (computeB1nQ bunchB1c bunchB2c) ⟨1, 3, fun _ _ => 0⟩ := by
  refine ⟨⟨rfl, rfl, ?_⟩, ⟨rfl, rfl, ?_⟩, ⟨rfl, rfl, ?_⟩, ⟨rfl, rfl, ?_⟩,
    ⟨rfl, rfl, ?_⟩, ⟨rfl, rfl, ?_⟩⟩
  · intro i hi j hj
    have hi3 : i < 3 := hi
    have hj3 : j < 3 := hj
    interval_cases i <;> interval_cases j <;>
      norm_num [computeD2q, diagQ, absRowsumQ, QMat.rowsum, QMat.abs, bunchB2c,
        Finset.sum_range_succ]
  · intro i hi j hj
    have hi1 : i < 1 := hi
    have hj1 : j < 1 := hj
    interval_cases i <;> interval_cases j <;>
      norm_num [computeD3q, diagQ, bunchB2c]
  · intro i hi j hj
    have hi3 : i < 3 := hi
    have hj1 : j < 1 := hj
    interval_cases i <;> interval_cases j <;>
      norm_num [computeB2nQ, computeD3q, diagQ, QMat.mul, bunchB2c,
        Finset.sum_range_succ]
  · intro i hi j hj
    have hi1 : i < 1 := hi
    have hj1 : j < 1 := hj
    interval_cases i <;> interval_cases j <;>
      norm_num [computeD1q, computeD2q, diagQ, QMat.scale, QMat.mul, QMat.abs,
        QMat.rowsum, absRowsumQ, bunchB1c, bunchB2c, Finset.sum_range_succ]
  · intro i hi j hj
    have hi1 : i < 1 := hi
    have hj1 : j < 1 := hj
    interval_cases i <;> interval_cases j <;>
      norm_num [QMat.pinvDiag, computeD1q, computeD2q, diagQ, QMat.scale,
        QMat.mul, QMat.abs, QMat.rowsum, absRowsumQ, bunchB1c, bunchB2c,
        Finset.sum_range_succ]
  · intro i hi j hj
    have hi1 : i < 1 := hi
    have hj3 : j < 3 := hj
    interval_cases i <;> interval_cases j <;>
      norm_num [computeB1nQ, QMat.pinvDiag, computeD1q, computeD2q, diagQ,
        QMat.scale, QMat.mul, QMat.abs, QMat.rowsum, absRowsumQ, bunchB1c,
        bunchB2c, Finset.sum_range_succ]

/-- Claim C1 as amended (corrected): when no row sum of `A_opt` is negative (so
no NaN arises), the Kipf normalizer returns `D^(-1/2) · A_optᵀ · D^(-1/2)` — the
symmetric two-sided scaling of the TRANSPOSE of `A_opt`, because the computed
`(A_opt · D^(-1/2))ᵀ · D^(-1/2)` transposes `A_opt` itself, not only the diagonal
factors.  It equals the claimed `D^(-1/2) · A_opt · D^(-1/2)` when `A_opt` is
symmetric (e.g. `|A|` symmetric), but not in general: see
`kipf_claimed_formula_counterexample`. -/
theorem kipf_normalized_transposed_scaling : ∀ (n : ℕ)
    (A : Matrix (Fin n) (Fin n) ℝ) (add : Bool) (mult : ℝ),
    (∀ i, 0 ≤ kipfRowsum A add mult i) →
    ∀ i j : Fin n,
      kipfNormalized A add mult i j
        = some ((Matrix.diagonal (kipfDInvSqrt A add mult)
            * Matrix.transpose (kipfAOpt A add mult)
            * Matrix.diagonal (kipfDInvSqrt A add mult)) i j)
      ∧ (Matrix.transpose (kipfAOpt A add mult) = kipfAOpt A add mult →
          kipfNormalized A add mult i j
            = some ((Matrix.diagonal (kipfDInvSqrt A add mult)
                * kipfAOpt A add mult
                * Matrix.diagonal (kipfDInvSqrt A add mult)) i j)) := by
  intro n A add mult hnn i j
  have h1 : kipfNormalized A add mult i j
      = some (kipfAOpt A add mult j i * kipfDInvSqrt A add mult i
          * kipfDInvSqrt A add mult j) := by
    unfold kipfNormalized
    rw [rInvSqrtG_rowsum A add mult i (hnn i),
      rInvSqrtG_rowsum A add mult j (hnn j)]
    rfl
  have h2 : (Matrix.diagonal (kipfDInvSqrt A add mult)
      * Matrix.transpose (kipfAOpt A add mult)
      * Matrix.diagonal (kipfDInvSqrt A add mult)) i j
      = kipfDInvSqrt A add mult i * kipfAOpt A add mult j i
          * kipfDInvSqrt A add mult j := by
    rw [Matrix.mul_diagonal, Matrix.diagonal_mul, Matrix.transpose_apply]
  have hmain : kipfNormalized A add mult i j
      = some ((Matrix.diagonal (kipfDInvSqrt A add mult)
          * Matrix.transpose (kipfAOpt A add mult)
          * Matrix.diagonal (kipfDInvSqrt A add mult)) i j) := by
    rw [h1, h2]
    exact congrArg some (by ring)
  refine ⟨hmain, fun hsym => ?_⟩
  rw [← hsym]
  exact hmain

/-- Counterexample to C1 as stated: for the non-symmetric `A = [[0, 1], [4, 0]]`
(no identity term), the code's output entry `(0, 1)` is `2`, while the claimed
`D^(-1/2) · A_opt · D^(-1/2)` entry is `1/2`. -/
theorem kipf_claimed_formula_counterexample :
    ¬ (kipfNormalized kipfAsym false 1 0 1
        = some ((Matrix.diagonal (kipfDInvSqrt kipfAsym false 1)
            * kipfAOpt kipfAsym false 1
            * Matrix.diagonal (kipfDInvSqrt kipfAsym false 1)) 0 1)) := by
  intro hcontra
  have hr0 : kipfRowsum kipfAsym false 1 0 = 1 := by
    rw [kipfRowsum_eq]
    norm_num [kipfAsym, Fin.sum_univ_two]
  have hr1 : kipfRowsum kipfAsym false 1 1 = 4 := by
    rw [kipfRowsum_eq]
    norm_num [kipfAsym, Fin.sum_univ_two]
  have hd0 : kipfDInvSqrt kipfAsym false 1 0 = 1 := by
    unfold kipfDInvSqrt
    rw [hr0, if_neg one_ne_zero, Real.sqrt_one]
    norm_num
  have hd1 : kipfDInvSqrt kipfAsym false 1 1 = 1 / 2 := by
    unfold kipfDInvSqrt
    rw [hr1, if_neg (by norm_num : (4 : ℝ) ≠ 0)]
    rw [show (4 : ℝ) = 2 ^ 2 by norm_num, Real.sqrt_sq (by norm_num : (0 : ℝ) ≤ 2)]
    norm_num
  have hA10 : kipfAOpt kipfAsym false 1 1 0 = 4 := by
    rw [kipfAOpt_apply]
    norm_num [kipfAsym]
  have hA01 : kipfAOpt kipfAsym false 1 0 1 = 1 := by
    rw [kipfAOpt_apply]
    norm_num [kipfAsym]
  have hL : kipfNormalized kipfAsym false 1 0 1 = some 2 := by
    unfold kipfNormalized
    rw [rInvSqrtG_rowsum kipfAsym false 1 0 (by rw [hr0]; norm_num),
      rInvSqrtG_rowsum kipfAsym false 1 1 (by rw [hr1]; norm_num)]
    show some (kipfAOpt kipfAsym false 1 1 0 * kipfDInvSqrt kipfAsym false 1 0
        * kipfDInvSqrt kipfAsym false 1 1) = some 2
    rw [hA10, hd0, hd1]
    norm_num
  have hR : (Matrix.diagonal (kipfDInvSqrt kipfAsym false 1)
      * kipfAOpt kipfAsym false 1
      * Matrix.diagonal (kipfDInvSqrt kipfAsym false 1)) 0 1 = 1 / 2 := by
    rw [Matrix.mul_diagonal, Matrix.diagonal_mul, hA01, hd0, hd1]
    norm_num
  rw [hL, hR] at hcontra
  have h2 := Option.some.inj hcontra
  norm_num at h2

/-- Witness for the amended C1 at the symmetric input `A = [[0, 4], [4, 0]]`:
there the code output agrees with the claimed symmetric scaling. -/
theorem kipf_normalized_transposed_scaling_witness :
    (∀ i, 0 ≤ kipfRowsum kipfSym false 1 i)
    ∧ kipfNormalized kipfSym false 1 0 1
        = some ((Matrix.diagonal (kipfDInvSqrt kipfSym false 1)
            * kipfAOpt kipfSym false 1
            * Matrix.diagonal (kipfDInvSqrt kipfSym false 1)) 0 1) := by
  have hnn : ∀ i, 0 ≤ kipfRowsum kipfSym false 1 i := by
    intro i
    rw [kipfRowsum_eq]
    have h : (0 : ℝ) ≤ ∑ j, |kipfSym i j| :=
      Finset.sum_nonneg fun j _ => abs_nonneg _
    simpa using h
  have hsym : Matrix.transpose (kipfAOpt kipfSym false 1) = kipfAOpt kipfSym false 1 := by
    ext i j
    rw [Matrix.transpose_apply, kipfAOpt_apply, kipfAOpt_apply]
    fin_cases i <;> fin_cases j <;> norm_num [kipfSym]
  exact ⟨hnn, (kipf_normalized_transposed_scaling 2 kipfSym false 1 hnn 0 1).2 hsym⟩
